import Mathlib

/-!
Shallow embedding of the Keeper four-letter-word diagnostic command
subsystem (`src/Coordination/FourLetterCommand.h`): the name/code codec,
the command registry (`FourLetterCommandFactory`) with its allow-list
gate and initialization flag, the command variants with their names, and
the dispatch path.  The header gives the declarations, the inline bodies
(`isInitialized`, `setInitialize`, the `name()` overrides, the constant
`ALLOW_LIST_ALL`) and the documentation comments; the out-of-line bodies
are modelled from the specification where noted.
-/

namespace FourLetterCommand

/-- Modelled from the spec: the body of `IFourLetterCommand::toCode` is not
in the available sources (only its declaration, header line 36).  The spec
describes the command code as "a 32-bit integer produced by packing the
4 bytes of the name in a fixed byte order", total over any 4-byte input,
with no validation.  We pack the bytes big-endian (first byte most
significant); each input entry is reduced to a byte (`% 256`) and the
result to 32 bits (`% 2^32`). -/
def toCode (bytes : List Nat) : Nat :=
  (bytes.foldl (fun acc b => acc * 256 + b % 256) 0) % 4294967296

/-- Modelled from the spec: the body of `IFourLetterCommand::toName` is not
in the available sources (only its declaration, header line 35).  The spec
requires `decode` to invert `encode` over 32-bit codes; this unpacks the
four bytes in the same fixed byte order used by `toCode`. -/
def toName (code : Nat) : List Nat :=
  [code / 16777216 % 256, code / 65536 % 256, code / 256 % 256, code % 256]

/-- Encoding of a command name given as a string of byte-sized characters
(every registered name is 4 printable ASCII characters). -/
def toCodeStr (s : String) : Nat :=
  toCode (s.data.map Char.toNat)

/-- The command variants declared in `FourLetterCommand.h` (one structure
per diagnostic capability, lines 80-492, including the four
jemalloc-gated variants and the fallback `NopCommand`). -/
inductive CommandVariant where
  | ruok | mntr | srst | nopc | conf | cons | crst | srvr | stat
  | wchs | wchc | wchp | dump | envi | dirs | isro | rcvr | apiv
  | csnp | lgif | rqld | rclc | clrs | ftfl | ydld
  | jmst | jmfp | jmep | jmdp | pfev
deriving DecidableEq

/-- The `name()` override of each command variant, transcribed from the
inline bodies in `FourLetterCommand.h`. -/
def CommandVariant.name : CommandVariant → String
  | .ruok => "ruok"
  | .mntr => "mntr"
  | .srst => "srst"
  | .nopc => "nopc"
  | .conf => "conf"
  | .cons => "cons"
  | .crst => "crst"
  | .srvr => "srvr"
  | .stat => "stat"
  | .wchs => "wchs"
  | .wchc => "wchc"
  | .wchp => "wchp"
  | .dump => "dump"
  | .envi => "envi"
  | .dirs => "dirs"
  | .isro => "isro"
  | .rcvr => "rcvr"
  | .apiv => "apiv"
  | .csnp => "csnp"
  | .lgif => "lgif"
  | .rqld => "rqld"
  | .rclc => "rclc"
  | .clrs => "clrs"
  | .ftfl => "ftfl"
  | .ydld => "ydld"
  | .jmst => "jmst"
  | .jmfp => "jmfp"
  | .jmep => "jmep"
  | .jmdp => "jmdp"
  | .pfev => "pfev"

/-- The encoded code of a variant (`IFourLetterCommand::code()` returns
`toCode(name())`). -/
def CommandVariant.code (v : CommandVariant) : Nat :=
  toCodeStr v.name

/-- Sentinel representing the wildcard allow-list entry, from the header:
`static constexpr int32_t ALLOW_LIST_ALL = 0;` (line 49). -/
def ALLOW_LIST_ALL : Nat := 0

/-- State of `FourLetterCommandFactory` (header lines 42-71): the atomic
`initialized` flag, the `commands` map from code to command (embedded as
an association list built in registration order), and the `allow_list`
vector of codes. -/
structure FourLetterCommandFactory where
  initialized : Bool
  commands : List (Nat × CommandVariant)
  allow_list : List Nat
deriving DecidableEq

/-- The factory before any registration: not initialized, no commands, no
allow-list entries (field initializers of the header, lines 68-70). -/
def emptyFactory : FourLetterCommandFactory :=
  ⟨false, [], []⟩

/-- Modelled from the spec: the body of
`FourLetterCommandFactory::registerCommand` is not in the available
sources.  The spec describes registration as append-only insertion of the
command under its encoded code. -/
def registerCommand (f : FourLetterCommandFactory) (v : CommandVariant) :
    FourLetterCommandFactory :=
  { f with commands := f.commands ++ [(v.code, v)] }

/-- Modelled from the spec: the body of `FourLetterCommandFactory::isKnown`
is not in the available sources.  The spec: "true if a command is
registered under that code". -/
def isKnown (f : FourLetterCommandFactory) (code : Nat) : Bool :=
  (f.commands.lookup code).isSome

/-- Modelled from the spec: the body of
`FourLetterCommandFactory::isEnabled` is not in the available sources.
The spec: "true if the allow-list sentinel is allow-all, or code is a
member of the explicit allow-list set"; the wildcard is represented in
the `allow_list` vector by the `ALLOW_LIST_ALL` sentinel (header
line 49). -/
def isEnabled (f : FourLetterCommandFactory) (code : Nat) : Bool :=
  f.allow_list.contains ALLOW_LIST_ALL || f.allow_list.contains code

/-- Separator predicate for allow-list tokens: the spec describes the
operator string as comma/space separated. -/
def isSep (c : Char) : Bool :=
  c = ',' || c = ' '

/-- Tail of the tokenizer: accumulates the current token (reversed) and
emits it at each separator, dropping empty tokens. -/
def tokenizeAux : List Char → List Char → List String
  | [], cur => if cur.isEmpty then [] else [String.mk cur.reverse]
  | c :: rest, cur =>
    if isSep c then
      if cur.isEmpty then tokenizeAux rest []
      else String.mk cur.reverse :: tokenizeAux rest []
    else tokenizeAux rest (c :: cur)

/-- Splits an allow-list specification string into its non-empty
comma/space separated tokens. -/
def splitTokens (s : String) : List String :=
  tokenizeAux s.data []

/-- Modelled from the spec: the body of
`FourLetterCommandFactory::initializeAllowList` is not in the available
sources.  The spec: the operator string is either "the single token `*`"
(which "collapses to the allow-all sentinel") or a comma/space separated
list of 4-character command names, each "decoded through the Codec into
codes and stored". -/
def initializeAllowList (f : FourLetterCommandFactory) (listSpec : String) :
    FourLetterCommandFactory :=
  let tokens := splitTokens listSpec
  if tokens = ["*"] then { f with allow_list := [ALLOW_LIST_ALL] }
  else { f with allow_list := tokens.map toCodeStr }

/-- Transcribed from the header (line 62):
`void setInitialize(bool flag) { initialized = flag; }`. -/
def setInitialize (f : FourLetterCommandFactory) (flag : Bool) :
    FourLetterCommandFactory :=
  { f with initialized := flag }

/-- Error text of the failed initialization check. -/
def checkInitializationError : String :=
  "Four letter command not initialized"

/-- Modelled from the spec: the body of
`FourLetterCommandFactory::checkInitialization` is not in the available
sources (declaration at header line 60).  The spec: "fails fast (hard
stop, not a retryable error) if invoked before the registry transitions
to initialized"; the hard stop is embedded as `Except.error`. -/
def checkInitialization (f : FourLetterCommandFactory) : Except String Unit :=
  if f.initialized then Except.ok () else Except.error checkInitializationError

/-- The command variants registered at startup, in declaration order of the
header.  Modelled from the spec: the body of
`FourLetterCommandFactory::registerCommands` is not in the available
sources; the spec says all variants are registered once at startup (the
jemalloc-gated group included when the capability is compiled in, as it
is here). -/
def registeredVariants : List CommandVariant :=
  [.ruok, .mntr, .srst, .nopc, .conf, .cons, .crst, .srvr, .stat,
   .wchs, .wchc, .wchp, .dump, .envi, .dirs, .isro, .rcvr, .apiv,
   .csnp, .lgif, .rqld, .rclc, .clrs, .ftfl, .ydld,
   .jmst, .jmfp, .jmep, .jmdp, .pfev]

/-- Modelled from the spec: the startup routine
`FourLetterCommandFactory::registerCommands` registers every variant,
initializes the allow-list from the configuration string, and marks the
factory initialized. -/
def registerCommands (listSpec : String) : FourLetterCommandFactory :=
  setInitialize
    (initializeAllowList (registeredVariants.foldl registerCommand emptyFactory)
      listSpec)
    true

/-- Modelled from the spec: the body of `RuokCommand::run` is not in the
available sources (declaration at header line 85).  The header comment
(lines 73-78) fixes the liveness token: "The server will respond with
imok if it is running.  Otherwise it will not respond at all"; absence of
a response is embedded as `none`. -/
def ruokRun (healthy : Bool) : Option String :=
  if healthy then some "imok" else none

/-- Aggregate server statistics counters reported by the stats commands
and cleared by the stats-reset command (the counters named in the spec:
packets received/sent, latency accumulators, outstanding requests). -/
structure ServerStats where
  packets_received : Nat
  packets_sent : Nat
  total_latency : Nat
  max_latency : Nat
  outstanding_requests : Nat
deriving DecidableEq

/-- The reset baseline of the aggregate counters: everything zeroed. -/
def statsBaseline : ServerStats :=
  ⟨0, 0, 0, 0, 0⟩

/-- Modelled from the spec: the body of `StatResetCommand::run` is not in
the available sources (declaration at header line 131).  The spec: the
reset action "mutates counters to zero / clears accumulated histograms"
and answers with a "short acknowledgement text". -/
def srstRun (_st : ServerStats) : String × ServerStats :=
  ("Server stats reset.", statsBaseline)

/-- Modelled from the spec: the body of `NopCommand::run` is not in the
available sources (declaration at header line 145).  The spec: the
fallback answer is "a fixed constant message naming that the command is
not allow-listed". -/
def nopResponse : String :=
  "Command is not allow-listed."

/-- Modelled from the spec: the dispatch path lives in the network layer
outside the available sources.  The spec: decode the token to a code;
"if not known, OR known-but-not-enabled, substitute a fixed rejected
response"; if known and enabled, run the registered command (here an
arbitrary implementation `runImpl`, since the individual `run()` bodies
are external). -/
def dispatch (runImpl : CommandVariant → Option String)
    (f : FourLetterCommandFactory) (token : List Nat) : Option String :=
  let code := toCode token
  if isKnown f code && isEnabled f code then
    match f.commands.lookup code with
    | some v => runImpl v
    | none => some nopResponse
  else some nopResponse

/-- Mutating operations of the registry lifecycle (queries are pure
functions of the state and leave it unchanged). -/
inductive RegistryOp where
  | register (v : CommandVariant)
  | initAllowList (listSpec : String)
  | setInit (flag : Bool)
deriving DecidableEq

/-- Applies one registry operation to the factory state. -/
def applyOp (f : FourLetterCommandFactory) : RegistryOp → FourLetterCommandFactory
  | .register v => registerCommand f v
  | .initAllowList s => initializeAllowList f s
  | .setInit b => setInitialize f b

/-- Runs a sequence of registry operations from a starting state. -/
def runOps (f : FourLetterCommandFactory) (ops : List RegistryOp) :
    FourLetterCommandFactory :=
  ops.foldl applyOp f

/-- Modelled from the spec: the full sequence of mutating registry calls
the program performs (the body of `registerCommands` is not in the
available sources): register every variant, initialize the allow-list
from the configuration, then mark the factory initialized.  `setInitialize`
is invoked by the program only with `true`. -/
def startupOps (listSpec : String) : List RegistryOp :=
  registeredVariants.map RegistryOp.register ++
    [RegistryOp.initAllowList listSpec, RegistryOp.setInit true]

lemma initializeAllowList_initialized (f : FourLetterCommandFactory)
    (s : String) : (initializeAllowList f s).initialized = f.initialized := by
  simp only [initializeAllowList]
  split <;> rfl

lemma initializeAllowList_commands (f : FourLetterCommandFactory)
    (s : String) : (initializeAllowList f s).commands = f.commands := by
  simp only [initializeAllowList]
  split <;> rfl

lemma applyOp_initialized (f : FourLetterCommandFactory) (op : RegistryOp)
    (h : op ≠ RegistryOp.setInit false) (hf : f.initialized = true) :
    (applyOp f op).initialized = true := by
  cases op with
  | register v => simpa [applyOp, registerCommand] using hf
  | initAllowList s => simpa [applyOp, initializeAllowList_initialized] using hf
  | setInit b =>
    cases b with
    | false => exact absurd rfl h
    | true => simp [applyOp, setInitialize]

lemma runOps_append (f : FourLetterCommandFactory) (a b : List RegistryOp) :
    runOps f (a ++ b) = runOps (runOps f a) b := by
  simp [runOps]

lemma runOps_initialized_mono (ops : List RegistryOp)
    (hops : RegistryOp.setInit false ∉ ops) (f : FourLetterCommandFactory)
    (hf : f.initialized = true) : (runOps f ops).initialized = true := by
  induction ops generalizing f with
  | nil => exact hf
  | cons op rest ih =>
    have hop : op ≠ RegistryOp.setInit false := by
      intro h
      exact hops (h ▸ List.mem_cons_self op rest)
    have hrest : RegistryOp.setInit false ∉ rest := by
      intro h
      exact hops (List.mem_cons_of_mem op h)
    simpa [runOps, List.foldl_cons] using
      ih hrest (applyOp f op) (applyOp_initialized f op hop hf)

lemma setInitFalse_not_mem_startupOps (s : String) :
    RegistryOp.setInit false ∉ startupOps s := by
  simp [startupOps, registeredVariants]

lemma registerCommands_commands (listSpec : String) :
    (registerCommands listSpec).commands =
      registeredVariants.map (fun v => (v.code, v)) := by
  simp only [registerCommands, setInitialize, initializeAllowList_commands]
  rfl

/-- Claim C1: the codec functions `toCode` and `toName` are mutually
inverse over their domains: every 4-byte sequence round-trips through
`toCode` with no restriction on character set, and every 32-bit code
round-trips through `toName`; the codec is total, with no error path and
no validation. -/
theorem codec_roundtrip :
    (∀ s : List Nat, s.length = 4 → (∀ b ∈ s, b < 256) →
      toName (toCode s) = s) ∧
    (∀ c : Nat, c < 4294967296 → toCode (toName c) = c) := by
  constructor
  · intro s hlen hb
    match s, hlen with
    | [a, b, c, d], _ =>
      have ha : a < 256 := hb a (by simp)
      have hb2 : b < 256 := hb b (by simp)
      have hc : c < 256 := hb c (by simp)
      have hd : d < 256 := hb d (by simp)
      simp only [toCode, toName, List.foldl, List.cons.injEq, and_true]
      refine ⟨?_, ?_, ?_, ?_⟩ <;> omega
  · intro c hc
    simp only [toCode, toName, List.foldl]
    omega

/-- Witness for C1 at the concrete name `mntr` (bytes 109 110 116 114)
and its code 1835955314. -/
theorem codec_roundtrip_witness :
    toName (toCode [109, 110, 116, 114]) = [109, 110, 116, 114] ∧
    toCode (toName 1835955314) = 1835955314 :=
  ⟨codec_roundtrip.1 [109, 110, 116, 114] rfl (by decide),
   codec_roundtrip.2 1835955314 (by decide)⟩

/-- Claim C2: when the allow-list specification is the wildcard `*`,
`isEnabled` returns `true` for every 32-bit code, registered or not. -/
theorem allowlist_wildcard (f : FourLetterCommandFactory) (code : Nat) :
    isEnabled (initializeAllowList f "*") code = true := by
  have ht : splitTokens "*" = ["*"] := by decide
  simp [isEnabled, initializeAllowList, ht, ALLOW_LIST_ALL]

/-- Claim C3: after initializing the allow-list from `"mntr,ruok"`,
`isEnabled` is true on the code of a registered variant exactly when that
variant is `mntr` or `ruok`. -/
theorem allowlist_explicit (v : CommandVariant) :
    isEnabled (registerCommands "mntr,ruok") v.code =
      (decide (v = CommandVariant.mntr) || decide (v = CommandVariant.ruok)) := by
  cases v <;> decide

/-- Claim C8: every command variant's `name()` is a constant string of
exactly 4 printable ASCII characters (the embedding returns the same
string on every call by construction, being a pure function). -/
theorem command_names_wellformed (v : CommandVariant) :
    v.name.length = 4 ∧
    (v.name.data.all fun c => 32 ≤ c.toNat && c.toNat ≤ 126) = true := by
  cases v <;> decide

/-- Claim C4: for every 4-byte token whose code is unknown to the
registry, or known but not enabled by the allow-list, dispatch produces
the same single fixed rejection text in both cases, for every possible
behavior of the real commands, so the response cannot distinguish an
unknown command from a disabled one. -/
theorem dispatch_rejection_uniform (runImpl : CommandVariant → Option String)
    (f : FourLetterCommandFactory) (token : List Nat)
    (_hlen : token.length = 4)
    (h : isKnown f (toCode token) = false ∨ isEnabled f (toCode token) = false) :
    dispatch runImpl f token = some nopResponse := by
  rcases h with h | h <;> simp [dispatch, h]

/-- Witness for C4: the unregistered token `xxxx` (bytes 120 120 120 120)
is rejected by the factory configured with allow-list `mntr,ruok`. -/
theorem dispatch_rejection_uniform_witness :
    dispatch (fun v => some v.name) (registerCommands "mntr,ruok")
      [120, 120, 120, 120] = some nopResponse := by
  apply dispatch_rejection_uniform
  · rfl
  · left
    decide

/-- Claim C5: the liveness probe `ruok` answers exactly the constant token
`imok` when the coordination service reports healthy, and writes no bytes
at all (response `none`) when it reports unhealthy. -/
theorem ruok_liveness :
    ruokRun true = some "imok" ∧ ruokRun false = none :=
  ⟨rfl, rfl⟩

/-- Claim C6: along every reachable prefix of the registry's startup
operation sequence, the `initialized` flag transitions monotonically from
`false` to `true` (once initialized, no later operation returns it to the
uninitialized state), and `checkInitialization` fails hard on every state
that has not yet made the transition. -/
theorem initialized_monotone :
    (∀ listSpec : String, ∀ i j : Nat, i ≤ j →
      (runOps emptyFactory ((startupOps listSpec).take i)).initialized = true →
      (runOps emptyFactory ((startupOps listSpec).take j)).initialized = true) ∧
    (∀ f : FourLetterCommandFactory, f.initialized = false →
      checkInitialization f = Except.error checkInitializationError) := by
  constructor
  · intro s i j hij hi
    have hj : i + (j - i) = j := by omega
    have hsplit : (startupOps s).take j =
        (startupOps s).take i ++ ((startupOps s).drop i).take (j - i) := by
      conv_lhs => rw [← hj]
      rw [List.take_add]
    have hmem : RegistryOp.setInit false ∉ ((startupOps s).drop i).take (j - i) := by
      intro hx
      exact setInitFalse_not_mem_startupOps s
        (List.drop_subset i (startupOps s) (List.take_subset (j - i) _ hx))
    rw [hsplit, runOps_append]
    exact runOps_initialized_mono _ hmem _ hi
  · intro f hf
    simp [checkInitialization, hf]

/-- Witness for C6: after the full startup sequence for allow-list `*`
(32 operations) the factory is and stays initialized, and the empty
factory fails the initialization check. -/
theorem initialized_monotone_witness :
    (runOps emptyFactory ((startupOps "*").take 33)).initialized = true ∧
    checkInitialization emptyFactory = Except.error checkInitializationError := by
  have h := initialized_monotone
  exact ⟨h.1 "*" 32 33 (by decide) (by decide), h.2 emptyFactory rfl⟩

/-- Claim C7: after the startup registration of all command variants
(whatever the allow-list specification), the commands mapping holds
exactly one entry per variant, and the encoded codes of all registered
commands are pairwise distinct. -/
theorem registered_codes_unique (listSpec : String) :
    ((registerCommands listSpec).commands.map Prod.fst).Nodup ∧
    (registerCommands listSpec).commands.length = registeredVariants.length ∧
    (∀ v : CommandVariant,
      ((registerCommands listSpec).commands.countP
        (fun p => decide (p.2 = v))) = 1) := by
  rw [registerCommands_commands]
  refine ⟨by decide, by decide, ?_⟩
  intro v
  cases v <;> decide

/-- Claim C9: the stats-reset command is idempotent on the aggregate
counters: after one call the counters sit at the reset baseline, a second
call leaves them there, and the second call answers with the same
acknowledgement as the first (a state-level no-op, not an error). -/
theorem srst_idempotent (st : ServerStats) :
    (srstRun st).2 = statsBaseline ∧
    (srstRun (srstRun st).2).2 = statsBaseline ∧
    (srstRun (srstRun st).2).1 = (srstRun st).1 :=
  ⟨rfl, rfl, rfl⟩

/-- Claim C10: the code of any 4-byte name of printable ASCII characters
(all bytes nonzero) is never the wildcard sentinel `ALLOW_LIST_ALL = 0`;
consequently an allow-list holding only such a code has no sentinel entry,
and `isEnabled` on it is plain membership, never wildcard acceptance. -/
theorem valid_name_code_nonzero (bytes : List Nat)
    (hlen : bytes.length = 4) (hb : ∀ b ∈ bytes, 32 ≤ b ∧ b ≤ 126) :
    toCode bytes ≠ ALLOW_LIST_ALL ∧
    ([toCode bytes].contains ALLOW_LIST_ALL) = false ∧
    (∀ f : FourLetterCommandFactory, f.allow_list = [toCode bytes] →
      ∀ c : Nat, isEnabled f c = (c == toCode bytes)) := by
  have hne : toCode bytes ≠ ALLOW_LIST_ALL := by
    match bytes, hlen with
    | [a, b, c, d], _ =>
      have ha := hb a (by simp)
      have hb2 := hb b (by simp)
      have hc := hb c (by simp)
      have hd := hb d (by simp)
      simp only [toCode, List.foldl, ALLOW_LIST_ALL]
      omega
  refine ⟨hne, ?_, ?_⟩
  · simp only [List.contains_cons, List.contains_nil, Bool.or_false]
    exact beq_eq_false_iff_ne.mpr (fun h => hne h.symm)
  · intro f hf c
    simp only [isEnabled, hf, List.contains_cons, List.contains_nil, Bool.or_false]
    rw [beq_eq_false_iff_ne.mpr (fun h => hne h.symm)]
    simp

/-- Witness for C10 at the name `mntr` (bytes 109 110 116 114). -/
theorem valid_name_code_nonzero_witness :
    toCode [109, 110, 116, 114] ≠ ALLOW_LIST_ALL ∧
    isEnabled ⟨true, [], [toCode [109, 110, 116, 114]]⟩ 0 =
      (0 == toCode [109, 110, 116, 114]) := by
  have h := valid_name_code_nonzero [109, 110, 116, 114] rfl (by decide)
  exact ⟨h.1, h.2.2 ⟨true, [], [toCode [109, 110, 116, 114]]⟩ rfl 0⟩

end FourLetterCommand
